import Mathlib

/-!
Verification of the data-ingestion core of a data-preview extension
(`src/data.preview.ts`).  The development shallowly embeds the
TypeScript source: JavaScript record values become an inductive type,
JavaScript objects become ordered association lists with unique keys,
the decoders become Lean functions over abstract parser results, and
the event-driven Avro path becomes an explicit event fold.
-/

namespace DataPreview

/-- JavaScript values as used by the data rows of the preview: scalar
strings, numbers, booleans, `null`, and nested objects (records).
Nested objects are the only values with `typeof v === "object"` (and
non-null) in this universe. -/
inductive JVal where
  | str (s : String)
  | num (n : Int)
  | bool (b : Bool)
  | null
  | obj (fields : List (String × JVal))

/-- Mirrors the JavaScript test `typeof v === "object" && v !== null`. -/
def JVal.isObj : JVal → Bool
  | .obj _ => true
  | _ => false

/-- A JavaScript record (object) as an ordered association list. -/
abbrev JRecord := List (String × JVal)

section AssocOps

variable {α : Type}

/-- Property read `o[k]`: first entry with the given key. -/
def getKey (k : String) : List (String × α) → Option α
  | [] => none
  | p :: rest => if p.1 = k then some p.2 else getKey k rest

/-- Property write `o[k] = v`: overwrite in place when the key exists
(JavaScript keeps the original insertion position), append otherwise. -/
def setKey : List (String × α) → String → α → List (String × α)
  | [], k, v => [(k, v)]
  | p :: rest, k, v => if p.1 = k then (k, v) :: rest else p :: setKey rest k v

/-- The key list of a record, in insertion order. -/
def keys (l : List (String × α)) : List String := l.map Prod.fst

@[simp] theorem keys_nil : keys ([] : List (String × α)) = [] := rfl

@[simp] theorem keys_cons (p : String × α) (l : List (String × α)) :
    keys (p :: l) = p.1 :: keys l := rfl

theorem setKey_of_not_mem (l : List (String × α)) (k : String) (v : α)
    (h : k ∉ keys l) : setKey l k v = l ++ [(k, v)] := by
  induction l with
  | nil => rfl
  | cons p rest ih =>
    simp only [keys_cons, List.mem_cons] at h
    push_neg at h
    have hpk : p.1 ≠ k := fun he => h.1 he.symm
    simp only [setKey, if_neg hpk, List.cons_append]
    rw [ih h.2]

theorem mem_keys_setKey (l : List (String × α)) (k k' : String) (v : α) :
    k' ∈ keys (setKey l k v) ↔ k' ∈ keys l ∨ k' = k := by
  induction l with
  | nil => simp [setKey]
  | cons p rest ih =>
    by_cases hpk : p.1 = k
    · simp [setKey, hpk]
      tauto
    · simp [setKey, hpk, ih]
      tauto

theorem nodup_keys_setKey (l : List (String × α)) (k : String) (v : α)
    (h : (keys l).Nodup) : (keys (setKey l k v)).Nodup := by
  induction l with
  | nil => simp [setKey]
  | cons p rest ih =>
    simp only [keys_cons, List.nodup_cons] at h
    by_cases hpk : p.1 = k
    · simp only [setKey, if_pos hpk, keys_cons, List.nodup_cons]
      exact ⟨hpk ▸ h.1, h.2⟩
    · simp only [setKey, if_neg hpk, keys_cons, List.nodup_cons]
      refine ⟨?_, ih h.2⟩
      rw [mem_keys_setKey]
      rintro (hmem | rfl)
      · exact h.1 hmem
      · exact hpk rfl

theorem mem_setKey (l : List (String × α)) (k : String) (v : α)
    (p : String × α) (h : p ∈ setKey l k v) : p ∈ l ∨ p = (k, v) := by
  induction l with
  | nil => simp [setKey] at h; simp [h]
  | cons q rest ih =>
    by_cases hqk : q.1 = k
    · simp only [setKey, if_pos hqk, List.mem_cons] at h
      rcases h with h | h
      · right; exact h
      · left; simp [h]
    · simp only [setKey, if_neg hqk, List.mem_cons] at h
      rcases h with h | h
      · left; simp [h]
      · rcases ih h with h' | h'
        · left; simp [h']
        · right; exact h'

theorem foldl_setKey_fresh (l : List (String × α)) (acc : List (String × α))
    (hn : (keys l).Nodup) (hd : ∀ x ∈ keys l, x ∉ keys acc) :
    l.foldl (fun a p => setKey a p.1 p.2) acc = acc ++ l := by
  induction l generalizing acc with
  | nil => simp
  | cons p rest ih =>
    simp only [keys_cons, List.nodup_cons] at hn
    simp only [List.foldl_cons]
    rw [setKey_of_not_mem acc p.1 p.2 (hd p.1 (by simp))]
    rw [ih (acc ++ [(p.1, p.2)]) hn.2]
    · simp
    · intro x hx
      simp only [keys, List.map_append, List.mem_append] at *
      push_neg
      constructor
      · exact hd x (by simp [keys, hx])
      · simp only [List.map_cons, List.map_nil, List.mem_singleton]
        rintro rfl
        exact hn.1 hx

theorem getKey_of_nodup_get? (l : List (String × α))
    (hn : (keys l).Nodup) (idx : Nat) (k : String) (v : α)
    (h : l.get? idx = some (k, v)) : getKey k l = some v := by
  induction l generalizing idx with
  | nil => simp at h
  | cons p rest ih =>
    simp only [keys_cons, List.nodup_cons] at hn
    cases idx with
    | zero =>
      simp only [List.get?] at h
      injection h with h
      subst h
      simp [getKey]
    | succ n =>
      simp only [List.get?] at h
      have hkmem : k ∈ keys rest := by
        have : (k, v) ∈ rest := List.get?_mem h
        exact List.mem_map_of_mem Prod.fst this
      have hpk : p.1 ≠ k := fun he => hn.1 (he ▸ hkmem)
      simp only [getKey, if_neg hpk]
      exact ih hn.2 n h

end AssocOps

/-- `Object.assign(target, src)`: assign every property of `src` onto
`target`, in `src`'s key order. -/
def assignAll (target src : JRecord) : JRecord :=
  src.foldl (fun acc p => setKey acc p.1 p.2) target

/-- Core of `flattenObject` (source lines 474-484): iterate the keys of
the input in order; a non-null object value is recursively flattened
and its keys merged onto the accumulated flat object (the outer key is
dropped), any other value is copied verbatim under its own key.  The
first argument is the mutable `flatObject` accumulator. -/
def flattenInto : JRecord → List (String × JVal) → JRecord
  | flatObject, [] => flatObject
  | flatObject, (_, JVal.obj fields) :: rest =>
      flattenInto (assignAll flatObject (flattenInto [] fields)) rest
  | flatObject, (k, v) :: rest =>
      flattenInto (setKey flatObject k v) rest
termination_by _ l => sizeOf l
decreasing_by all_goals simp_wf <;> omega

/-- `flattenObject(obj)` from the source: flatten a record starting
from an empty accumulator. -/
def flattenObject (obj : JRecord) : JRecord := flattenInto [] obj

/-- A record is flat when no value is a non-null nested object. -/
def IsFlat (r : JRecord) : Prop := ∀ p ∈ r, p.2.isObj = false

theorem isFlat_nil : IsFlat [] := by intro p hp; simp at hp

theorem isFlat_setKey (l : JRecord) (k : String) (v : JVal)
    (hl : IsFlat l) (hv : v.isObj = false) : IsFlat (setKey l k v) := by
  intro p hp
  rcases mem_setKey l k v p hp with h | h
  · exact hl p h
  · subst h; exact hv

theorem isFlat_assignAll (src : JRecord) :
    ∀ target, IsFlat target → IsFlat src → IsFlat (assignAll target src) := by
  induction src with
  | nil => intro t ht _; exact ht
  | cons p rest ih =>
    intro t ht hs
    have hp : p.2.isObj = false := hs p (by simp)
    have hrest : IsFlat rest := fun q hq => hs q (by simp [hq])
    simpa [assignAll] using
      ih (setKey t p.1 p.2) (isFlat_setKey t p.1 p.2 ht hp) hrest

theorem nodup_keys_assignAll (src : JRecord) :
    ∀ target, (keys target).Nodup → (keys (assignAll target src)).Nodup := by
  induction src with
  | nil => intro t ht; exact ht
  | cons p rest ih =>
    intro t ht
    simpa [assignAll] using ih (setKey t p.1 p.2) (nodup_keys_setKey t p.1 p.2 ht)

theorem isFlat_flattenInto (acc : JRecord) (l : List (String × JVal)) :
    IsFlat acc → IsFlat (flattenInto acc l) := by
  induction acc, l using flattenInto.induct with
  | case1 flatObject => intro h; simpa [flattenInto] using h
  | case2 flatObject k fields rest ih1 ih2 =>
    intro h
    simp only [flattenInto]
    exact ih2 (isFlat_assignAll _ _ h (ih1 isFlat_nil))
  | case3 flatObject k v rest hv ih =>
    intro h
    simp only [flattenInto]
    exact ih (isFlat_setKey _ _ _ h (by cases v <;> simp [JVal.isObj] at hv ⊢))

theorem nodup_keys_flattenInto (acc : JRecord) (l : List (String × JVal)) :
    (keys acc).Nodup → (keys (flattenInto acc l)).Nodup := by
  induction acc, l using flattenInto.induct with
  | case1 flatObject => intro h; simpa [flattenInto] using h
  | case2 flatObject k fields rest ih1 ih2 =>
    intro h
    simp only [flattenInto]
    exact ih2 (nodup_keys_assignAll _ _ h)
  | case3 flatObject k v rest hv ih =>
    intro h
    simp only [flattenInto]
    exact ih (nodup_keys_setKey _ _ _ h)

theorem flattenInto_of_flat (l : List (String × JVal)) (hf : IsFlat l) :
    ∀ acc, flattenInto acc l = l.foldl (fun a p => setKey a p.1 p.2) acc := by
  induction l with
  | nil => intro acc; simp [flattenInto]
  | cons p rest ih =>
    intro acc
    have hp : p.2.isObj = false := hf p (by simp)
    have hrest : IsFlat rest := fun q hq => hf q (by simp [hq])
    obtain ⟨k, v⟩ := p
    cases v with
    | obj fields => simp [JVal.isObj] at hp
    | str s => simp only [flattenInto, List.foldl_cons]; exact ih hrest _
    | num n => simp only [flattenInto, List.foldl_cons]; exact ih hrest _
    | bool b => simp only [flattenInto, List.foldl_cons]; exact ih hrest _
    | null => simp only [flattenInto, List.foldl_cons]; exact ih hrest _

theorem flattenObject_of_flat_nodup (r : JRecord)
    (hf : IsFlat r) (hn : (keys r).Nodup) : flattenObject r = r := by
  rw [flattenObject, flattenInto_of_flat r hf,
    foldl_setKey_fresh r [] hn (by intro x hx; simp [keys])]
  simp

/-- C5: the row flattener is idempotent on every acyclic nested record
(`flatten(flatten(r)) = flatten(r)`), and on every already-flat record
(unique keys, no nested non-null object values) it is the identity
(`flatten(r) = r`). -/
theorem flattenObject_idem_and_flat_identity (r : JRecord) :
    flattenObject (flattenObject r) = flattenObject r ∧
    ((keys r).Nodup → IsFlat r → flattenObject r = r) := by
  constructor
  · exact flattenObject_of_flat_nodup (flattenObject r)
      (isFlat_flattenInto [] r isFlat_nil)
      (nodup_keys_flattenInto [] r (by simp [keys]))
  · intro hn hf
    exact flattenObject_of_flat_nodup r hf hn

/-- Witness for C5 at the concrete flat record
`{a: 1, b: null}`. -/
theorem flattenObject_idem_and_flat_identity_witness :
    flattenObject (flattenObject [("a", JVal.num 1), ("b", JVal.null)]) =
      flattenObject [("a", JVal.num 1), ("b", JVal.null)] ∧
    flattenObject [("a", JVal.num 1), ("b", JVal.null)] =
      [("a", JVal.num 1), ("b", JVal.null)] :=
  ⟨(flattenObject_idem_and_flat_identity [("a", JVal.num 1), ("b", JVal.null)]).1,
   (flattenObject_idem_and_flat_identity [("a", JVal.num 1), ("b", JVal.null)]).2
     (by decide) (by simp [IsFlat, JVal.isObj])⟩

/-! ## Avro decoder (row-oriented binary container), source lines 426-447

`getAvroData` wires three handlers onto an `avsc` `BlockDecoder`
(`metadata`, `data`, `end`) and then synchronously returns the local
`rows` variable.  The decoder delivers its events on later turns of the
single-threaded event loop, so the handler registrations have not run
when `return rows` executes.  The embedding makes the event loop
explicit: the decode is a fold of the handler function over the event
stream of the file, and the synchronous return reads the handler state
as it is at return time. -/

/-- An Avro container file: self-describing metadata plus
block-compressed data blocks, each carrying a list of row records. -/
structure AvroFile where
  metadata : JVal
  blocks : List (List JRecord)

/-- Events emitted by the external block decoder. -/
inductive AvroEvent where
  | metadataEvt (t : JVal)
  | dataEvt (r : JRecord)
  | endEvt

/-- The local mutable state of `getAvroData`: the accumulated
`dataRows`, the received `dataSchema`, the `rows` variable, and the
payloads posted to the webview by the `end` handler. -/
structure AvroState where
  dataRows : List JRecord
  dataSchema : JVal
  rows : List JRecord
  posted : List (List JRecord)

/-- State of `getAvroData` right after the three `on(...)` handler
registrations: nothing accumulated yet. -/
def avroInitState : AvroState :=
  { dataRows := [], dataSchema := .null, rows := [], posted := [] }

/-- The three event handlers of `getAvroData`: `metadata` stores the
type, `data` pushes one row, `end` flattens all accumulated rows,
stores them in `rows` and posts them to the webview. -/
def avroHandle (st : AvroState) : AvroEvent → AvroState
  | .metadataEvt t => { st with dataSchema := t }
  | .dataEvt r => { st with dataRows := st.dataRows ++ [r] }
  | .endEvt =>
      let rows := st.dataRows.map (fun rowObject => flattenObject rowObject)
      { st with rows := rows, posted := st.posted ++ [rows] }

/-- The event stream the block decoder emits for a file: one metadata
event, one data event per row of each block in order, one terminal
end event. -/
def avroEvents (f : AvroFile) : List AvroEvent :=
  .metadataEvt f.metadata :: (f.blocks.flatten.map .dataEvt) ++ [.endEvt]

/-- Result of one call of `getAvroData`: the synchronously returned
value and the handler state after the event loop has delivered every
event of the file. -/
structure AvroDecode where
  syncReturn : List JRecord
  finalState : AvroState

/-- `getAvroData(dataFilePath)`: registers the handlers and returns
`rows`; the events are delivered only afterwards. -/
def getAvroData (f : AvroFile) : AvroDecode :=
  let stateAtReturn := avroInitState
  { syncReturn := stateAtReturn.rows
    finalState := (avroEvents f).foldl avroHandle stateAtReturn }

theorem foldl_avroHandle_data (rs : List JRecord) (st : AvroState) :
    (rs.map AvroEvent.dataEvt).foldl avroHandle st =
      { st with dataRows := st.dataRows ++ rs } := by
  induction rs generalizing st with
  | nil => simp
  | cons r rest ih =>
    simp only [List.map_cons, List.foldl_cons, avroHandle]
    rw [ih]
    simp

/-- C1: for every Avro file the synchronous return value of
`getAvroData` is the empty sequence; the accumulated, flattened rows
are delivered only by the terminal `end` event, which posts exactly
one payload whose row count is the total row count over all blocks. -/
theorem getAvroData_sync_empty_async_delivery (f : AvroFile) :
    (getAvroData f).syncReturn = [] ∧
    (getAvroData f).finalState.posted =
      [f.blocks.flatten.map flattenObject] ∧
    (getAvroData f).finalState.posted.map List.length =
      [(f.blocks.map List.length).sum] := by
  have hfold : (getAvroData f).finalState =
      { dataRows := f.blocks.flatten
        dataSchema := f.metadata
        rows := f.blocks.flatten.map flattenObject
        posted := [f.blocks.flatten.map flattenObject] } := by
    simp only [getAvroData, avroEvents, List.foldl_cons, List.foldl_append,
      avroHandle, avroInitState]
    rw [foldl_avroHandle_data]
    simp [avroHandle]
  refine ⟨rfl, ?_, ?_⟩
  · rw [hfold]
  · rw [hfold]
    simp only [List.map_cons, List.map_nil, List.length_map, List.length_flatten]

/-! ## Schema type mapper (source lines 389-398 and config `dataTypes`)

`getArrowData` maps each column type tag through
`fieldType.indexOf("<")`, truncates at the delimiter when its index is
positive, and looks the base name up in the fixed `config.dataTypes`
table; a missing key yields `undefined` (`none`). -/

/-- JavaScript `String.prototype.indexOf` for a single character:
index of the first occurrence, `none` when absent. -/
def idxOfChar : List Char → Char → Option Nat
  | [], _ => none
  | x :: xs, c => if x = c then some 0 else (idxOfChar xs c).map (fun i => i + 1)

/-- The fixed arrow-to-display type table from `config.ts`. -/
def dataTypes : List (String × String) :=
  [("Binary", "string"), ("Bool", "boolean"), ("Date", "date"),
   ("Dictionary", "string"), ("Float32", "float"), ("Float64", "float"),
   ("Int8", "integer"), ("Int16", "integer"), ("Int32", "integer"),
   ("Int64", "integer"), ("Timestamp", "datetime"), ("Utf8", "string")]

/-- The per-column mapping step of `getArrowData`: truncate the type
tag at the first `<` when that delimiter occurs at a positive index,
then look the result up in `dataTypes`. -/
def mapType (fieldType : String) : Option String :=
  match idxOfChar fieldType.data '<' with
  | some typesIndex =>
      if 0 < typesIndex then
        getKey (String.mk (fieldType.data.take typesIndex)) dataTypes
      else
        getKey fieldType dataTypes
  | none => getKey fieldType dataTypes

/-- The bare base name of a type tag: everything before the first
parametrization delimiter, the tag itself when there is none. -/
def baseName (s : String) : String :=
  match idxOfChar s.data '<' with
  | some i => String.mk (s.data.take i)
  | none => s

theorem idxOfChar_zero {l : List Char} {c : Char}
    (h : idxOfChar l c = some 0) : ∃ t, l = c :: t := by
  cases l with
  | nil => simp [idxOfChar] at h
  | cons x xs =>
    by_cases hx : x = c
    · exact ⟨xs, by rw [hx]⟩
    · simp only [idxOfChar, if_neg hx] at h
      cases hidx : idxOfChar xs c with
      | none => rw [hidx] at h; simp at h
      | some j => rw [hidx] at h; simp at h

theorem idxOfChar_take {l : List Char} {c : Char} :
    ∀ {i}, idxOfChar l c = some i → idxOfChar (l.take i) c = none := by
  induction l with
  | nil => intro i h; simp [idxOfChar] at h
  | cons x xs ih =>
    intro i h
    by_cases hx : x = c
    · simp only [idxOfChar, if_pos hx] at h
      injection h with h
      subst h
      simp [idxOfChar]
    · simp only [idxOfChar, if_neg hx] at h
      cases hidx : idxOfChar xs c with
      | none => rw [hidx] at h; simp at h
      | some j =>
        rw [hidx] at h
        simp at h
        subst h
        simp [idxOfChar, hx, ih hidx]

theorem getKey_eq_none_of_head {α : Type} (l : List (String × α)) (tag : String)
    (c : Char) (hc : tag.data.head? = some c)
    (hl : ∀ p ∈ l, p.1.data.head? ≠ some c) : getKey tag l = none := by
  induction l with
  | nil => rfl
  | cons p rest ih =>
    have hpk : p.1 ≠ tag := fun he => hl p (by simp) (he ▸ hc)
    simp only [getKey, if_neg hpk]
    exact ih (fun q hq => hl q (by simp [hq]))

/-- C6: a type tag carrying a parametrization suffix maps to the same
canonical type as its bare base name, and a tag whose base name is not
in the table maps to `none` (an omitted schema entry) without
failing. -/
theorem mapType_param_suffix (tag : String) :
    (idxOfChar tag.data '<' ≠ none → mapType tag = mapType (baseName tag)) ∧
    (getKey (baseName tag) dataTypes = none → mapType tag = none) := by
  have hheadTable : ∀ p ∈ dataTypes, p.1.data.head? ≠ some '<' := by decide
  constructor
  · intro h
    cases hidx : idxOfChar tag.data '<' with
    | none => exact absurd hidx h
    | some i =>
      cases i with
      | zero =>
        obtain ⟨t, ht⟩ := idxOfChar_zero hidx
        have h1 : mapType tag = getKey tag dataTypes := by
          simp [mapType, hidx]
        have h2 : getKey tag dataTypes = none :=
          getKey_eq_none_of_head _ tag '<' (by rw [ht]; rfl) hheadTable
        have h3 : baseName tag = String.mk (tag.data.take 0) := by
          simp [baseName, hidx]
        rw [h1, h2, h3, List.take_zero]
        decide
      | succ j =>
        have h0 : 0 < j + 1 := Nat.succ_pos j
        have h1 : mapType tag =
            getKey (String.mk (tag.data.take (j + 1))) dataTypes := by
          simp [mapType, hidx, h0]
        have hb : baseName tag = String.mk (tag.data.take (j + 1)) := by
          simp [baseName, hidx]
        have h2 : idxOfChar (tag.data.take (j + 1)) '<' = none :=
          idxOfChar_take hidx
        have h3 : mapType (String.mk (tag.data.take (j + 1))) =
            getKey (String.mk (tag.data.take (j + 1))) dataTypes := by
          unfold mapType
          rw [show (String.mk (tag.data.take (j + 1))).data =
            tag.data.take (j + 1) from rfl, h2]
        rw [h1, hb, h3]
  · intro h
    cases hidx : idxOfChar tag.data '<' with
    | none =>
      have hb : baseName tag = tag := by simp [baseName, hidx]
      rw [hb] at h
      simp [mapType, hidx, h]
    | some i =>
      cases i with
      | zero =>
        obtain ⟨t, ht⟩ := idxOfChar_zero hidx
        have h1 : mapType tag = getKey tag dataTypes := by
          simp [mapType, hidx]
        rw [h1]
        exact getKey_eq_none_of_head _ tag '<' (by rw [ht]; rfl) hheadTable
      | succ j =>
        have h0 : 0 < j + 1 := Nat.succ_pos j
        have hb : baseName tag = String.mk (tag.data.take (j + 1)) := by
          simp [baseName, hidx]
        rw [hb] at h
        simp [mapType, hidx, h0, h]

/-- Witness for C6 at the concrete tag `List<Int32>`: the suffix is
stripped, the base name `List` is unknown, and the entry is omitted. -/
theorem mapType_param_suffix_witness :
    mapType "List<Int32>" = mapType "List" ∧ mapType "List<Int32>" = none :=
  ⟨by
    have h := (mapType_param_suffix "List<Int32>").1 (by decide)
    rw [show baseName "List<Int32>" = "List" from by decide] at h
    exact h,
   (mapType_param_suffix "List<Int32>").2 (by decide)⟩

/-! ## Arrow decoder (columnar binary, source lines 375-405) -/

/-- One schema field of an arrow table: its name and the string form
of its declared type (`field.type.toString()`). -/
structure ArrowField where
  name : String
  fieldType : String
deriving DecidableEq

/-- An in-memory arrow table as the decoder observes it: reported
length, schema fields in order, and the cell read
`getColumnAt(index).get(i)`. -/
structure ArrowTable where
  length : Nat
  fields : List ArrowField
  col : Nat → Nat → JVal

/-- The row-building loop body of `getArrowData` for index `i`:
iterate the field names with their indices and assign
`proto[fieldName] = column.get(i)` onto an empty prototype. -/
def buildArrowRow (t : ArrowTable) (i : Nat) : JRecord :=
  (t.fields.map (fun field => field.name)).enum.foldl
    (fun proto p => setKey proto p.2 (t.col p.1 i)) []

/-- The row sequence `getArrowData` builds: one row per index below
the reported table length. -/
def getArrowRows (t : ArrowTable) : List JRecord :=
  (List.range t.length).map (fun i => buildArrowRow t i)

/-- The schema remap of `getArrowData`:
`schema[field.name] = dataTypes[truncated type]` for every field. -/
def getArrowSchema (t : ArrowTable) : List (String × Option String) :=
  t.fields.foldl (fun schema field => setKey schema field.name (mapType field.fieldType)) []

theorem foldl_setKey_map {β α : Type} (l : List β) (key : β → String)
    (val : β → α) (acc : List (String × α)) :
    l.foldl (fun a b => setKey a (key b) (val b)) acc =
      (l.map (fun b => (key b, val b))).foldl (fun a q => setKey a q.1 q.2) acc := by
  induction l generalizing acc <;> simp [*]

theorem enumFrom_map_snd {α : Type} (n : Nat) (l : List α) :
    (List.enumFrom n l).map (fun p => p.2) = l := by
  induction l generalizing n with
  | nil => rfl
  | cons x xs ih => simp [List.enumFrom, ih]

theorem keys_enum_pairs {γ : Type} (names : List String) (v : Nat → γ) :
    keys (names.enum.map (fun p => ((p.2, v p.1) : String × γ))) = names := by
  rw [keys, List.map_map]
  show names.enum.map (fun p => p.2) = names
  rw [List.enum, enumFrom_map_snd]

theorem keys_map_pairs {β γ : Type} (l : List β) (key : β → String) (val : β → γ) :
    keys (l.map (fun b => ((key b, val b) : String × γ))) = l.map key := by
  rw [keys, List.map_map]
  rfl

theorem buildArrowRow_eq (t : ArrowTable) (i : Nat)
    (hnodup : (t.fields.map (fun field => field.name)).Nodup) :
    buildArrowRow t i =
      (t.fields.map (fun field => field.name)).enum.map
        (fun p => (p.2, t.col p.1 i)) := by
  rw [buildArrowRow, foldl_setKey_map _ (fun p => p.2) (fun p : Nat × String => t.col p.1 i)]
  rw [foldl_setKey_fresh]
  · simp
  · rw [keys_enum_pairs _ (fun n => t.col n i)]
    exact hnodup
  · intro x _ hx
    simp [keys] at hx

theorem getArrowSchema_eq (t : ArrowTable)
    (hnodup : (t.fields.map (fun field => field.name)).Nodup) :
    getArrowSchema t =
      t.fields.map (fun field => (field.name, mapType field.fieldType)) := by
  rw [getArrowSchema,
    foldl_setKey_map _ (fun field : ArrowField => field.name)
      (fun field : ArrowField => mapType field.fieldType)]
  rw [foldl_setKey_fresh]
  · simp
  · rw [keys_map_pairs _ (fun field : ArrowField => field.name)
      (fun field : ArrowField => mapType field.fieldType)]
    exact hnodup
  · intro x _ hx
    simp [keys] at hx

/-- C7: the decoded arrow row sequence has exactly the reported table
length (including zero); each row `i` holds, under every field name,
the `i`-th value of that field's column; and a column declared `Int32`
is mapped to `integer` in the derived schema. -/
theorem getArrowData_rows_and_schema (t : ArrowTable)
    (hnodup : (t.fields.map (fun field => field.name)).Nodup) :
    (getArrowRows t).length = t.length ∧
    (∀ i r, (getArrowRows t).get? i = some r →
      ∀ idx f, t.fields.get? idx = some f →
        getKey f.name r = some (t.col idx i)) ∧
    (∀ f ∈ t.fields, f.fieldType = "Int32" →
      getKey f.name (getArrowSchema t) = some (some "integer")) := by
  refine ⟨by simp [getArrowRows], ?_, ?_⟩
  · intro i r hr idx f hf
    have hi : i < t.length := by
      by_contra hge
      rw [getArrowRows, List.get?_map,
        List.get?_eq_none.mpr (by simpa using Nat.le_of_not_lt hge)] at hr
      simp at hr
    rw [getArrowRows, List.get?_map, List.get?_range hi] at hr
    simp only [Option.map] at hr
    injection hr with hr
    subst hr
    rw [buildArrowRow_eq t i hnodup]
    have hname : (t.fields.map (fun field => field.name)).get? idx = some f.name := by
      rw [List.get?_map, hf]; rfl
    have henum : (t.fields.map (fun field => field.name)).enum.get? idx =
        some (idx, f.name) := by
      rw [List.get?_enum, hname]; rfl
    have hL : ((t.fields.map (fun field => field.name)).enum.map
        (fun p => ((p.2, t.col p.1 i) : String × JVal))).get? idx =
        some (f.name, t.col idx i) := by
      rw [List.get?_map, henum]; rfl
    refine getKey_of_nodup_get? _ ?_ idx _ _ hL
    rw [keys_enum_pairs _ (fun n => t.col n i)]
    exact hnodup
  · intro f hf hInt
    obtain ⟨idx, hidx⟩ := List.get?_of_mem hf
    rw [getArrowSchema_eq t hnodup]
    have hL : (t.fields.map (fun field =>
        ((field.name, mapType field.fieldType) : String × Option String))).get? idx =
        some (f.name, mapType f.fieldType) := by
      rw [List.get?_map, hidx]; rfl
    have hmap : mapType f.fieldType = some "integer" := by
      rw [hInt]; decide
    rw [hmap] at hL
    refine getKey_of_nodup_get? _ ?_ idx _ _ hL
    rw [keys_map_pairs _ (fun field : ArrowField => field.name)
      (fun field : ArrowField => mapType field.fieldType)]
    exact hnodup

/-- A concrete three-row, two-column arrow table with an `Int32`
column, used by witnesses. -/
def sampleArrowTable : ArrowTable :=
  { length := 3
    fields := [⟨"x", "Int32"⟩, ⟨"y", "Utf8"⟩]
    col := fun _ i => JVal.num i }

/-- Witness for C7 at the concrete three-row table: the row sequence
has length 3 and the `Int32` column is mapped to `integer`. -/
theorem getArrowData_rows_and_schema_witness :
    (getArrowRows sampleArrowTable).length = 3 ∧
    getKey "x" (getArrowSchema sampleArrowTable) = some (some "integer") := by
  constructor
  · rw [(getArrowData_rows_and_schema sampleArrowTable (by decide)).1]
    rfl
  · exact (getArrowData_rows_and_schema sampleArrowTable (by decide)).2.2
      ⟨"x", "Int32"⟩ (by decide) rfl

/-! ## Excel decoder (source lines 347-368)

`getExcelData` reads only the first worksheet: when `SheetNames` is
non-empty it converts that sheet's rows via `xlsx.utils.sheet_to_json`,
otherwise it returns the initial empty `rows` array.  The workbook
model carries the external parser's per-sheet row conversion as the
`sheets` function (`sheet_to_json(workbook.Sheets[name])`). -/

/-- A parsed spreadsheet workbook: the ordered sheet names and, for
each name, the row records the external sheet-to-JSON conversion
produces for that sheet. -/
structure WorkBook where
  sheetNames : List String
  sheets : String → List JRecord

/-- `getExcelData(workbook)`: rows of the first sheet when one
exists, the empty row sequence otherwise. -/
def getExcelData (workbook : WorkBook) : List JRecord :=
  match workbook.sheetNames with
  | [] => []
  | firstSheetName :: _ => workbook.sheets firstSheetName

/-- C8: the spreadsheet decoder returns exactly the row conversion of
the first sheet when at least one sheet exists (later sheets are
ignored), and the empty row sequence, not a failure, for a workbook
with zero sheets. -/
theorem getExcelData_first_sheet_only (workbook : WorkBook) :
    (∀ firstSheetName rest, workbook.sheetNames = firstSheetName :: rest →
      getExcelData workbook = workbook.sheets firstSheetName) ∧
    (workbook.sheetNames = [] → getExcelData workbook = []) := by
  constructor
  · intro firstSheetName rest h
    rw [getExcelData, h]
  · intro h
    rw [getExcelData, h]

/-- A concrete two-sheet workbook, used by witnesses. -/
def sampleWorkBook : WorkBook :=
  { sheetNames := ["Sheet1", "Sheet2"]
    sheets := fun n => if n = "Sheet1" then [[("a", JVal.num 1)]] else [] }

/-- A workbook with zero sheets, used by witnesses. -/
def emptyWorkBook : WorkBook := { sheetNames := [], sheets := fun _ => [] }

/-- Witness for C8 at a two-sheet workbook and at the empty
workbook. -/
theorem getExcelData_first_sheet_only_witness :
    getExcelData sampleWorkBook = sampleWorkBook.sheets "Sheet1" ∧
    getExcelData emptyWorkBook = [] :=
  ⟨(getExcelData_first_sheet_only sampleWorkBook).1 "Sheet1" ["Sheet2"] rfl,
   (getExcelData_first_sheet_only emptyWorkBook).2 rfl⟩

/-! ## Ingestion dispatcher and preview session
(source `getFileData` lines 265-312, `refresh` lines 229-257)

The host collaborators are modelled by a `FileEnv`: whether the
resolved path exists, the text content `fs.readFileSync(path, "utf8")`
returns, and the results of the external parsers, each an `Except`
because a parser may throw.  `getFileData`'s untyped return value
(`null`, a string, or an array of rows) becomes the `FileData`
variant, and the JavaScript read `data.length` becomes `jsLength`,
which faults on `null` exactly as the TypeError does. -/

/-- A JavaScript runtime exception. -/
inductive JsError where
  | typeError (msg : String)
  | thrown (msg : String)
deriving DecidableEq

/-- The TypeError raised by reading `.length` on `null`. -/
def nullLengthError : JsError :=
  .typeError "Cannot read property length of null"

/-- The possible values of `getFileData`'s untyped result. -/
inductive FileData where
  | null
  | text (s : String)
  | rows (rs : List JRecord)

/-- The JavaScript expression `data.length`: string length, array
length, or a TypeError on `null`. -/
def jsLength : FileData → Except JsError Nat
  | .null => .error nullLengthError
  | .text s => .ok s.length
  | .rows rs => .ok rs.length

/-- User-facing notices shown through the host window
(`showErrorMessage` / `showInformationMessage`); these are not
messages to the renderer webview. -/
inductive Notice where
  | errorMessage (msg : String)
  | infoMessage (msg : String)
deriving DecidableEq

/-- The host-side collaborators of one `getFileData` call. -/
structure FileEnv where
  fileExists : Bool
  textContent : String
  binaryWorkbook : Except JsError WorkBook
  textWorkbook : Except JsError WorkBook
  arrowTable : Except JsError ArrowTable
  avroFile : AvroFile

/-- What one `getFileData` call produces besides a thrown exception:
the returned data, the notices shown, and the `_schema` assignment
performed by the arrow path (`none` = field left untouched). -/
structure DecodeOutcome where
  data : FileData
  notices : List Notice
  schemaSet : Option (List (String × Option String))

/-- `filePath.substr(filePath.lastIndexOf("."))`: last index of a
character, `none` when absent. -/
def lastIdxOf : List Char → Char → Option Nat
  | [], _ => none
  | x :: xs, c =>
    match lastIdxOf xs c with
    | some i => some (i + 1)
    | none => if x = c then some 0 else none

/-- The extension taken as the substring from the last `.`;
`substr(-1)` (no dot at all) clamps to the last character. -/
def fileExt (filePath : String) : String :=
  match lastIdxOf filePath.data '.' with
  | some i => String.mk (filePath.data.drop i)
  | none => String.mk (filePath.data.drop (filePath.data.length - 1))

/-- The extension switch of `getFileData`: route to the decoder for
the extension, produce `null` (and for `.parquet` an informational
notice) otherwise. -/
def extSwitch (env : FileEnv) (ext : String) : Except JsError DecodeOutcome :=
  match ext with
  | ".csv" | ".tsv" | ".txt" | ".tab" | ".json" =>
      .ok ⟨.text env.textContent, [], none⟩
  | ".xls" | ".xlsb" | ".xlsx" | ".xlsm" | ".slk" | ".ods" | ".prn" =>
      env.binaryWorkbook.map (fun workbook => ⟨.rows (getExcelData workbook), [], none⟩)
  | ".dif" | ".xml" | ".html" =>
      env.textWorkbook.map (fun workbook => ⟨.rows (getExcelData workbook), [], none⟩)
  | ".arrow" =>
      env.arrowTable.map (fun t => ⟨.rows (getArrowRows t), [], some (getArrowSchema t)⟩)
  | ".avro" =>
      .ok ⟨.rows (getAvroData env.avroFile).syncReturn, [], none⟩
  | ".parquet" =>
      .ok ⟨.null, [.infoMessage "Parquet data format support coming soon!"], none⟩
  | _ => .ok ⟨.null, [], none⟩

/-- `getFileData(filePath)`: show a missing-file notice and return the
initial `null` when the resolved path does not exist, otherwise
dispatch on the extension. -/
def getFileData (env : FileEnv) (filePath : String) : Except JsError DecodeOutcome :=
  if env.fileExists = false then
    .ok ⟨.null, [.errorMessage (filePath ++ " does not exist!")], none⟩
  else
    extSwitch env (fileExt filePath)

/-- Messages posted to the renderer webview by `refresh`. -/
inductive RendererMsg where
  | refreshMsg (fileName : String) (data : FileData)
  | errorMsg (e : JsError)

/-- `refresh()`: call `getFileData` inside `try`, post a refresh
payload when `data.length > 0`, and convert any exception (a decoder
throw or the `data.length` TypeError) into an error payload.  The
function is total: no exception crosses the session boundary.  It
returns the renderer messages and the user notices shown. -/
def refresh (env : FileEnv) (fileName : String) :
    List RendererMsg × List Notice :=
  match getFileData env fileName with
  | .error e => ([.errorMsg e], [])
  | .ok out => postStage fileName out
where
  /-- The `if (data.length > 0) postMessage(...)` step of `refresh`,
  still inside the `try`. -/
  postStage (fileName : String) (out : DecodeOutcome) :
      List RendererMsg × List Notice :=
    match jsLength out.data with
    | .error e => ([.errorMsg e], out.notices)
    | .ok n =>
      if 0 < n then ([.refreshMsg fileName out.data], out.notices)
      else ([], out.notices)

theorem refresh_eq_error (env : FileEnv) (fileName : String) (e : JsError)
    (h : getFileData env fileName = .error e) :
    refresh env fileName = ([.errorMsg e], []) := by
  unfold refresh
  rw [h]

theorem refresh_eq_ok (env : FileEnv) (fileName : String) (out : DecodeOutcome)
    (h : getFileData env fileName = .ok out) :
    refresh env fileName = refresh.postStage fileName out := by
  unfold refresh
  rw [h]

/-- An exception every external parser of this environment would
raise if it were invoked. -/
def boomError : JsError := .thrown "malformed input"

/-- A zero-block Avro file, used in sample environments. -/
def sampleAvroFile : AvroFile := { metadata := .null, blocks := [] }

/-- An environment in which the file exists and every decoder throws:
any result it still produces was produced without a decode attempt. -/
def throwingEnv : FileEnv :=
  { fileExists := true
    textContent := ""
    binaryWorkbook := .error boomError
    textWorkbook := .error boomError
    arrowTable := .error boomError
    avroFile := sampleAvroFile }

/-- An environment whose resolved file path does not exist. -/
def missingEnv : FileEnv :=
  { fileExists := false
    textContent := "a,b\n1,2\n"
    binaryWorkbook := .error boomError
    textWorkbook := .error boomError
    arrowTable := .error boomError
    avroFile := sampleAvroFile }

/-- A healthy environment with concrete parser results. -/
def sampleEnv : FileEnv :=
  { fileExists := true
    textContent := "a,b\n1,2\n"
    binaryWorkbook := .ok sampleWorkBook
    textWorkbook := .ok sampleWorkBook
    arrowTable := .ok sampleArrowTable
    avroFile := sampleAvroFile }

/-- A healthy environment whose text file is empty. -/
def emptyTextEnv : FileEnv :=
  { fileExists := true
    textContent := ""
    binaryWorkbook := .ok emptyWorkBook
    textWorkbook := .ok emptyWorkBook
    arrowTable := .ok sampleArrowTable
    avroFile := sampleAvroFile }

/-- C2 (code bug): for the unrecognized extension `.foo` the
dispatcher makes no decode attempt (even with every decoder throwing,
`getFileData` silently returns the `null` data with no notice), but
`refresh` then evaluates `data.length` on that `null`, and the caught
TypeError is posted to the renderer as an error payload — contradicting
the claimed "no payload of any kind". -/
theorem refresh_unknown_extension_posts_error_payload :
    getFileData throwingEnv "data.foo" = .ok ⟨.null, [], none⟩ ∧
    refresh throwingEnv "data.foo" = ([.errorMsg nullLengthError], []) :=
  ⟨rfl, rfl⟩

/-- C3 (code bug): for a missing file the session does show the
user-facing missing-file notice, but `refresh` then evaluates
`data.length` on the returned `null`, and the caught TypeError is
posted to the renderer as an error payload — contradicting the claimed
"no payload is posted". -/
theorem refresh_missing_file_posts_error_payload :
    getFileData missingEnv "data.csv" =
      .ok ⟨.null, [.errorMessage "data.csv does not exist!"], none⟩ ∧
    refresh missingEnv "data.csv" =
      ([.errorMsg nullLengthError], [.errorMessage "data.csv does not exist!"]) :=
  ⟨rfl, rfl⟩

/-- C4: every failure raised inside a decoder during `refresh` is
caught at the session boundary and converted into exactly one error
payload posted to the renderer; `refresh` is total, so no exception
propagates to its caller. -/
theorem refresh_converts_decoder_failure (env : FileEnv) (fileName : String)
    (e : JsError) (h : getFileData env fileName = .error e) :
    refresh env fileName = ([.errorMsg e], []) :=
  refresh_eq_error env fileName e h

/-- Witness for C4: a malformed workbook makes the spreadsheet parser
throw, and `refresh` posts that failure as an error payload. -/
theorem refresh_converts_decoder_failure_witness :
    refresh throwingEnv "book.xlsx" = ([.errorMsg boomError], []) :=
  refresh_converts_decoder_failure throwingEnv "book.xlsx" boomError rfl

/-- C9: for every existing file with a delimited/plain-text extension
the decode returns the entire text content unmodified as a single raw
string, with no notices and no schema assignment. -/
theorem getFileData_text_raw (env : FileEnv) (filePath : String)
    (hex : env.fileExists = true)
    (hext : fileExt filePath = ".csv" ∨ fileExt filePath = ".tsv" ∨
      fileExt filePath = ".txt" ∨ fileExt filePath = ".tab" ∨
      fileExt filePath = ".json") :
    getFileData env filePath = .ok ⟨.text env.textContent, [], none⟩ := by
  unfold getFileData
  rcases hext with h | h | h | h | h <;> rw [hex, h] <;> rfl

/-- Witness for C9: the delimited text file `a,b\n1,2\n` decodes to
its raw text. -/
theorem getFileData_text_raw_witness :
    getFileData sampleEnv "data.csv" = .ok ⟨.text "a,b\n1,2\n", [], none⟩ :=
  getFileData_text_raw sampleEnv "data.csv" rfl (Or.inl (by decide))

/-- C10: a decode that succeeds with data of length zero makes
`refresh` post no message to the renderer at all, and a refresh
payload is posted only for data of positive length. -/
theorem refresh_posts_only_nonempty (env : FileEnv) (fileName : String) :
    (∀ out, getFileData env fileName = .ok out → jsLength out.data = .ok 0 →
      (refresh env fileName).1 = []) ∧
    (∀ fn d, RendererMsg.refreshMsg fn d ∈ (refresh env fileName).1 →
      ∃ n, jsLength d = .ok n ∧ 0 < n) := by
  constructor
  · intro out hout hlen
    rw [refresh_eq_ok env fileName out hout]
    unfold refresh.postStage
    rw [hlen]
    simp
  · intro fn d hmem
    cases hg : getFileData env fileName with
    | error e =>
      rw [refresh_eq_error env fileName e hg] at hmem
      simp at hmem
    | ok out =>
      rw [refresh_eq_ok env fileName out hg] at hmem
      unfold refresh.postStage at hmem
      split at hmem
      · simp at hmem
      · rename_i n heq
        split at hmem
        · rename_i hn
          simp at hmem
          obtain ⟨rfl, rfl⟩ := hmem
          exact ⟨n, heq, hn⟩
        · simp at hmem

/-- Witness for C10: a successful decode of an empty text file makes
`refresh` post nothing. -/
theorem refresh_posts_only_nonempty_witness :
    (refresh emptyTextEnv "data.csv").1 = [] :=
  (refresh_posts_only_nonempty emptyTextEnv "data.csv").1
    ⟨.text "", [], none⟩ rfl rfl

end DataPreview
